import Mathlib

/-
Verification of the numerical core of the emf repository.

Embedded here, faithfully to the source:
- new_model_test.py: Crout_factorization, forward_substitution,
  Crout_backward_substitution and E_field (floats are modeled as rationals;
  the transcendental kernels np.cos, np.log, fractional powers, np.pi and
  np.sqrt(3) are abstract parameters, since the claims under study do not
  depend on their values).
- emf/fields/fields_funks.py: optimize_phasing (circuit preparation and the
  minimum-tracking permutation search), _phasing_test, target_fields and
  _bisect.  The field evaluation routines called there (fields_calcs.E_field,
  fields_calcs.B_field, fields_calcs.phasors_to_magnitudes) are not part of
  the source tree, so per-candidate metric evaluation is abstracted as a
  function parameter.
-/

/- The rational arithmetic operations are marked irreducible upstream, which
blocks evaluation of concrete instances of the embedded algorithms inside
decide; restoring the default reducibility lets the kernel compute with
them (kernel checking itself never depended on the attribute). -/
set_option allowUnsafeReducibility true in
attribute [semireducible] Rat.add Rat.sub Rat.mul Rat.div Rat.inv Rat.neg Rat.ofScientific

abbrev Mat : Type := ℕ → ℕ → ℚ

abbrev Vect : Type := ℕ → ℚ

/-- Model of a freshly allocated numpy array filled with zeros.  The source
uses np.empty, whose contents are unspecified; the algorithm in
Crout_factorization reads some cells before writing them (its inner sum runs
over range(j) rather than range(i)), and those reads are modeled as zeros,
matching the zero-filled pages numpy typically returns for a fresh buffer. -/
def zeroMat : Mat := fun _ _ => 0

/-- Single in-place array write A[r,c] = v. -/
def matUpd (M : Mat) (r c : ℕ) (v : ℚ) : Mat :=
  fun a b => if a = r ∧ b = c then v else M a b

/-- Inner loop of Crout_factorization filling a column of L
(new_model_test.py lines 34-36): for j in range(i, n):
LU[j,i] = A[j,i] - sum(LU[j,k]*LU[k,i] for k in range(j)).
The first argument after i is the current row j, the second the number of
rows still to process. -/
def croutLaux (A : Mat) (i : ℕ) : ℕ → ℕ → Mat → Mat
  | _, 0, M => M
  | j, s+1, M =>
    croutLaux A i (j+1) s
      (matUpd M j i (A j i - ((List.range j).map (fun k => M j k * M k i)).sum))

/-- Inner loop of Crout_factorization filling a row of U
(new_model_test.py lines 37-39): for j in range(i+1, n):
LU[i,j] = (A[i,j] - sum(LU[i,k]*LU[k,j] for k in range(i))) / LU[i,i]. -/
def croutUaux (A : Mat) (i : ℕ) : ℕ → ℕ → Mat → Mat
  | _, 0, M => M
  | j, s+1, M =>
    croutUaux A i (j+1) s
      (matUpd M i j ((A i j - ((List.range i).map (fun k => M i k * M k j)).sum) / M i i))

/-- Outer loop of Crout_factorization (for i in range(n)). -/
def croutOuter (A : Mat) (n : ℕ) : ℕ → ℕ → Mat → Mat
  | _, 0, M => M
  | i, s+1, M =>
    croutOuter A n (i+1) s (croutUaux A i (i+1) (n - (i+1)) (croutLaux A i i (n - i) M))

/-- Crout_factorization from new_model_test.py lines 27-40: LU decomposition
returning a single n by n matrix LU holding L (lower part including the
diagonal) and U (strict upper part; U has unit diagonal, which is not
stored).  n is A.shape[0].  The freshly allocated LU buffer (np.empty) is
modeled by zeroMat; the unused local M = A[:,:] of line 29 is dropped. -/
def Crout_factorization (A : Mat) (n : ℕ) : Mat := croutOuter A n 0 n zeroMat

/-- forward_substitution from new_model_test.py lines 19-25:
x[i] = (b[i] - sum(A[i,j]*x[j] for j in range(i))) / float(A[i,i]),
for i in range(n).  The result list holds x[0..n-1]; the recursion peels the
last loop iteration. -/
def forward_substitution (A : Mat) (b : Vect) : ℕ → List ℚ
  | 0 => []
  | n+1 =>
    let x := forward_substitution A b n
    x ++ [(b n - ((List.range n).map (fun j => A n j * x.getD j 0)).sum) / A n n]

/-- Helper for Crout_backward_substitution: s iterations of the loop of
new_model_test.py lines 15-16 have run, i.e. rows n-s .. n-1 are solved and
stored (in index order) in the resulting list.  At step s+1 the row solved is
i = n-1-s and the sum runs over j in range(i+1, n), i.e. the s indices
starting at n-s; entry j of the previous partial solution sits at position
j-(n-s). -/
def bsAux (A : Mat) (b : Vect) (n : ℕ) : ℕ → List ℚ
  | 0 => []
  | s+1 =>
    (b (n-1-s) - ((List.range' (n-s) s).map
      (fun j => A (n-1-s) j * (bsAux A b n s).getD (j-(n-s)) 0)).sum) :: bsAux A b n s

/-- Crout_backward_substitution from new_model_test.py lines 11-17:
back substitution with the diagonal elements of the matrix taken as 1:
x[i] = b[i] - sum(A[i,j]*x[j] for j in range(i+1, n)), for i from n-1 down
to 0 (no division). -/
def Crout_backward_substitution (A : Mat) (b : Vect) (n : ℕ) : List ℚ := bsAux A b n n

/-- The linear solve exactly as E_field uses it (new_model_test.py lines
107-108): M = forward_substitution(P_LU, V); Q = Crout_backward_substitution(P_LU, M). -/
def solveLU (LU : Mat) (b : Vect) (n : ℕ) : List ℚ :=
  Crout_backward_substitution LU (fun i => (forward_substitution LU b n).getD i 0) n

/-- L read off the combined Crout storage: the lower part including the
diagonal (the stored diagonal belongs to L). -/
def croutL (M : Mat) (n : ℕ) : Mat := fun r c => if c ≤ r ∧ r < n then M r c else 0

/-- U read off the combined Crout storage: unit diagonal, strict upper part
stored. -/
def croutU (M : Mat) (n : ℕ) : Mat :=
  fun r c => if r = c ∧ r < n then 1 else if r < c ∧ c < n then M r c else 0

lemma matUpd_same (M : Mat) (r c : ℕ) (v : ℚ) : matUpd M r c v r c = v := by
  simp [matUpd]

lemma matUpd_ne (M : Mat) (r c : ℕ) (v : ℚ) {a b : ℕ} (h : ¬ (a = r ∧ b = c)) :
    matUpd M r c v a b = M a b := by
  simp only [matUpd, if_neg h]

lemma listSum_range (f : ℕ → ℚ) (n : ℕ) :
    ((List.range n).map f).sum = ∑ k in Finset.range n, f k := by
  induction n with
  | zero => simp
  | succ n ih =>
    rw [List.range_succ, List.map_append, List.sum_append, Finset.sum_range_succ, ih]
    simp

lemma listSum_range' (f : ℕ → ℚ) (s l : ℕ) :
    ((List.range' s l).map f).sum = ∑ k in Finset.Ico s (s+l), f k := by
  rw [List.range'_eq_map_range, List.map_map, Finset.sum_Ico_eq_sum_range]
  simp only [Nat.add_sub_cancel_left]
  rw [listSum_range]
  exact Finset.sum_congr rfl (fun k _ => rfl)

lemma fs_length (A : Mat) (b : Vect) (n : ℕ) : (forward_substitution A b n).length = n := by
  induction n with
  | zero => rfl
  | succ n ih => simp [forward_substitution, ih]

lemma fs_getD_succ (A : Mat) (b : Vect) (n i : ℕ) (hi : i < n) :
    (forward_substitution A b (n+1)).getD i 0 = (forward_substitution A b n).getD i 0 := by
  show (forward_substitution A b n ++ [_]).getD i 0 = _
  rw [List.getD_append]
  rw [fs_length]
  exact hi

lemma fs_getD_of_le (A : Mat) (b : Vect) {m n : ℕ} (h : m ≤ n) (i : ℕ) (hi : i < m) :
    (forward_substitution A b n).getD i 0 = (forward_substitution A b m).getD i 0 := by
  induction n with
  | zero => omega
  | succ n ih =>
    rcases Nat.lt_or_ge m (n+1) with hm | hm
    · have hmn : m ≤ n := by omega
      rw [fs_getD_succ A b n i (by omega), ih hmn]
    · have : m = n + 1 := by omega
      subst this
      rfl

lemma fs_getD_eq (A : Mat) (b : Vect) (n i : ℕ) (hi : i < n) :
    (forward_substitution A b n).getD i 0
      = (b i - ∑ j in Finset.range i, A i j * (forward_substitution A b n).getD j 0) / A i i := by
  have hstep : (forward_substitution A b (i+1)).getD i 0
      = (b i - ∑ j in Finset.range i, A i j * (forward_substitution A b i).getD j 0) / A i i := by
    show (forward_substitution A b i ++ [_]).getD i 0 = _
    rw [List.getD_append_right]
    · rw [fs_length, Nat.sub_self, listSum_range]
      rfl
    · rw [fs_length]
  rw [fs_getD_of_le A b (show i+1 ≤ n by omega) i (by omega), hstep]
  congr 1
  congr 1
  apply Finset.sum_congr rfl
  intro j hj
  rw [Finset.mem_range] at hj
  rw [fs_getD_of_le A b (show i+1 ≤ n by omega) j (by omega),
      fs_getD_succ A b i j hj]

lemma bsAux_length (A : Mat) (b : Vect) (n s : ℕ) : (bsAux A b n s).length = s := by
  induction s with
  | zero => rfl
  | succ s ih => simp [bsAux, ih]

lemma bsAux_getD_add (A : Mat) (b : Vect) (n : ℕ) (d : ℕ) :
    ∀ s t, (bsAux A b n (s+d)).getD (t+d) 0 = (bsAux A b n s).getD t 0 := by
  induction d with
  | zero => intro s t; rfl
  | succ d ih =>
    intro s t
    have h1 : s + (d+1) = (s+d) + 1 := by omega
    have h2 : t + (d+1) = (t+d) + 1 := by omega
    rw [h1, h2]
    show (bsAux A b n ((s+d)+1)).getD ((t+d)+1) 0 = _
    rw [show bsAux A b n ((s+d)+1) = _ :: bsAux A b n (s+d) from rfl]
    rw [List.getD_cons_succ]
    exact ih s t

lemma bs_getD_eq (A : Mat) (b : Vect) (n i : ℕ) (hi : i < n) :
    (Crout_backward_substitution A b n).getD i 0
      = b i - ∑ j in Finset.Ico (i+1) n,
          A i j * (Crout_backward_substitution A b n).getD j 0 := by
  unfold Crout_backward_substitution
  have h0 := bsAux_getD_add A b n i (n-i) 0
  rw [show n - i + i = n from by omega, show 0 + i = i from by omega] at h0
  have hs : n - i = (n-i-1) + 1 := by omega
  rw [h0, hs]
  show (_ :: bsAux A b n (n-i-1)).getD 0 0 = _
  rw [List.getD_cons_zero]
  have e1 : n - 1 - (n-i-1) = i := by omega
  have e2 : n - (n-i-1) = i + 1 := by omega
  rw [e1, e2]
  congr 1
  rw [List.map_congr_left (g := fun j => A i j * (bsAux A b n n).getD j 0)]
  · rw [listSum_range', show i + 1 + (n-i-1) = n from by omega]
  · intro j hj
    rw [List.mem_range'_1] at hj
    congr 1
    have h2 := bsAux_getD_add A b n (i+1) (n-i-1) (j-(i+1))
    rw [show n - i - 1 + (i+1) = n from by omega,
        show j - (i+1) + (i+1) = j from by omega] at h2
    rw [h2]

/-- Cells of the combined LU buffer already written after the outer Crout
loop has fully processed columns and rows 0..i-1: column c of L (cells with
c le r) is written once the outer iteration c is done (c lt i), and row r of
U (cells with r lt c) once iteration r is done (r lt i). -/
def written (n i r c : ℕ) : Prop := (c ≤ r ∧ r < n ∧ c < i) ∨ (r < c ∧ c < n ∧ r < i)

/-- Cells written while the L inner loop of outer iteration i has processed
rows i..j-1 of column i. -/
def LRegion (n i j r c : ℕ) : Prop := written n i r c ∨ (c = i ∧ i ≤ r ∧ r < j)

/-- Cells written while the U inner loop of outer iteration i has processed
columns i+1..j-1 of row i (the whole L column i is already written). -/
def URegion (n i j r c : ℕ) : Prop := LRegion n i n r c ∨ (r = i ∧ i < c ∧ c < j)

/-- The Crout recurrences, relating one cell of the combined storage M to
the already-final values of earlier cells: L cells (c le r) hold
A r c - sum of M r k * M k c over k lt c, U cells hold the same expression
with the sum over k lt r, divided by the pivot M r r. -/
def croutCell (A M : Mat) (r c : ℕ) : Prop :=
  if c ≤ r then M r c = A r c - ∑ k in Finset.range c, M r k * M k c
  else M r c = (A r c - ∑ k in Finset.range r, M r k * M k c) / M r r

/-- Loop invariant: outside the written region the buffer still holds its
initial zeros, inside it the Crout recurrences hold. -/
def RegInv (Reg : ℕ → ℕ → Prop) (A M : Mat) : Prop :=
  (∀ r c, ¬ Reg r c → M r c = 0) ∧ (∀ r c, Reg r c → croutCell A M r c)

lemma regInv_congr {Reg Reg' : ℕ → ℕ → Prop} (h : ∀ r c, Reg r c ↔ Reg' r c)
    {A M : Mat} (hI : RegInv Reg A M) : RegInv Reg' A M :=
  ⟨fun r c hn => hI.1 r c (fun hr => hn ((h r c).mp hr)),
   fun r c hr => hI.2 r c ((h r c).mpr hr)⟩

lemma Lwrite_inv (A : Mat) (n i j : ℕ) (hij : i ≤ j) (hjn : j < n) (M : Mat)
    (h : RegInv (LRegion n i j) A M) :
    RegInv (LRegion n i (j+1)) A
      (matUpd M j i (A j i - ((List.range j).map (fun k => M j k * M k i)).sum)) := by
  obtain ⟨hz, hc⟩ := h
  have hvsum : A j i - ((List.range j).map (fun k => M j k * M k i)).sum
      = A j i - ∑ k in Finset.range i, M j k * M k i := by
    rw [listSum_range]
    congr 1
    refine (Finset.sum_subset (Finset.range_subset.mpr hij) ?_).symm
    intro k hk hks
    rw [Finset.mem_range] at hk
    rw [Finset.mem_range, not_lt] at hks
    have hzero : M j k = 0 := by
      apply hz
      simp only [LRegion, written]
      omega
    rw [hzero, zero_mul]
  constructor
  · intro r c hnot
    have hne : ¬(r = j ∧ c = i) := by
      intro hrc
      apply hnot
      simp only [LRegion, written]
      omega
    rw [matUpd_ne _ _ _ _ hne]
    apply hz
    intro hreg
    apply hnot
    simp only [LRegion, written] at hreg ⊢
    omega
  · intro r c hreg
    by_cases hrc : r = j ∧ c = i
    · have hr1 : r = j := hrc.1
      have hc1 : c = i := hrc.2
      subst hr1
      subst hc1
      simp only [croutCell, if_pos hij]
      rw [matUpd_same, hvsum]
      congr 1
      apply Finset.sum_congr rfl
      intro k hk
      rw [Finset.mem_range] at hk
      rw [matUpd_ne _ _ _ _ (by omega : ¬(r = r ∧ k = c)),
          matUpd_ne _ _ _ _ (by omega : ¬(k = r ∧ c = c))]
    · have hold : LRegion n i j r c := by
        simp only [LRegion, written] at hreg ⊢
        omega
      have hold3 : (c ≤ r ∧ r < n ∧ c < i) ∨ (r < c ∧ c < n ∧ r < i)
          ∨ (c = i ∧ i ≤ r ∧ r < j) := by
        simp only [LRegion, written, or_assoc] at hold
        exact hold
      have hcc := hc r c hold
      simp only [croutCell] at hcc ⊢
      by_cases hle : c ≤ r
      · rw [if_pos hle] at hcc ⊢
        rw [matUpd_ne _ _ _ _ hrc, hcc]
        congr 1
        apply Finset.sum_congr rfl
        intro k hk
        rw [Finset.mem_range] at hk
        rw [matUpd_ne _ _ _ _ (by omega : ¬(r = j ∧ k = i)),
            matUpd_ne _ _ _ _ (by omega : ¬(k = j ∧ c = i))]
      · rw [if_neg hle] at hcc ⊢
        rw [matUpd_ne _ _ _ _ hrc, hcc]
        have e1 : ∀ k, k < r →
            matUpd M j i (A j i - ((List.range j).map (fun k => M j k * M k i)).sum) r k
              * matUpd M j i (A j i - ((List.range j).map (fun k => M j k * M k i)).sum) k c
            = M r k * M k c := by
          intro k hk
          rw [matUpd_ne _ _ _ _ (by omega : ¬(r = j ∧ k = i)),
              matUpd_ne _ _ _ _ (by omega : ¬(k = j ∧ c = i))]
        have e2 : matUpd M j i
            (A j i - ((List.range j).map (fun k => M j k * M k i)).sum) r r = M r r :=
          matUpd_ne _ _ _ _ (by omega : ¬(r = j ∧ r = i))
        rw [Finset.sum_congr rfl (fun k hk => e1 k (Finset.mem_range.mp hk)), e2]

lemma Uwrite_inv (A : Mat) (n i j : ℕ) (hij : i < j) (hjn : j < n) (M : Mat)
    (h : RegInv (URegion n i j) A M) :
    RegInv (URegion n i (j+1)) A
      (matUpd M i j ((A i j - ((List.range i).map (fun k => M i k * M k j)).sum) / M i i)) := by
  obtain ⟨hz, hc⟩ := h
  constructor
  · intro r c hnot
    have hne : ¬(r = i ∧ c = j) := by
      intro hrc
      apply hnot
      simp only [URegion, LRegion, written]
      omega
    rw [matUpd_ne _ _ _ _ hne]
    apply hz
    intro hreg
    apply hnot
    simp only [URegion, LRegion, written] at hreg ⊢
    omega
  · intro r c hreg
    by_cases hrc : r = i ∧ c = j
    · have hr1 : r = i := hrc.1
      have hc1 : c = j := hrc.2
      subst hr1
      subst hc1
      simp only [croutCell, if_neg (by omega : ¬ c ≤ r)]
      rw [matUpd_same, listSum_range]
      have e1 : ∀ k, k < r →
          matUpd M r c ((A r c - ∑ x in Finset.range r, M r x * M x c) / M r r) r k
            * matUpd M r c ((A r c - ∑ x in Finset.range r, M r x * M x c) / M r r) k c
          = M r k * M k c := by
        intro k hk
        rw [matUpd_ne _ _ _ _ (by omega : ¬(r = r ∧ k = c)),
            matUpd_ne _ _ _ _ (by omega : ¬(k = r ∧ c = c))]
      have e2 : matUpd M r c ((A r c - ∑ x in Finset.range r, M r x * M x c) / M r r) r r
          = M r r :=
        matUpd_ne _ _ _ _ (by omega : ¬(r = r ∧ r = c))
      rw [Finset.sum_congr rfl (fun k hk => e1 k (Finset.mem_range.mp hk)), e2]
    · have hold : URegion n i j r c := by
        simp only [URegion, LRegion, written] at hreg ⊢
        omega
      have hold4 : (c ≤ r ∧ r < n ∧ c < i) ∨ (r < c ∧ c < n ∧ r < i)
          ∨ (c = i ∧ i ≤ r ∧ r < n) ∨ (r = i ∧ i < c ∧ c < j) := by
        simp only [URegion, LRegion, written, or_assoc] at hold
        exact hold
      have hcc := hc r c hold
      simp only [croutCell] at hcc ⊢
      by_cases hle : c ≤ r
      · rw [if_pos hle] at hcc ⊢
        rw [matUpd_ne _ _ _ _ hrc, hcc]
        congr 1
        apply Finset.sum_congr rfl
        intro k hk
        rw [Finset.mem_range] at hk
        rw [matUpd_ne _ _ _ _ (by omega : ¬(r = i ∧ k = j)),
            matUpd_ne _ _ _ _ (by omega : ¬(k = i ∧ c = j))]
      · rw [if_neg hle] at hcc ⊢
        rw [matUpd_ne _ _ _ _ hrc, hcc]
        have e1 : ∀ k, k < r →
            matUpd M i j ((A i j - ((List.range i).map (fun k => M i k * M k j)).sum) / M i i) r k
              * matUpd M i j ((A i j - ((List.range i).map (fun k => M i k * M k j)).sum) / M i i) k c
            = M r k * M k c := by
          intro k hk
          rw [matUpd_ne _ _ _ _ (by omega : ¬(r = i ∧ k = j)),
              matUpd_ne _ _ _ _ (by omega : ¬(k = i ∧ c = j))]
        have e2 : matUpd M i j
            ((A i j - ((List.range i).map (fun k => M i k * M k j)).sum) / M i i) r r
            = M r r :=
          matUpd_ne _ _ _ _ (by omega : ¬(r = i ∧ r = j))
        rw [Finset.sum_congr rfl (fun k hk => e1 k (Finset.mem_range.mp hk)), e2]

lemma croutLaux_inv (A : Mat) (n i : ℕ) :
    ∀ s j M, i ≤ j → j + s = n → RegInv (LRegion n i j) A M →
      RegInv (LRegion n i n) A (croutLaux A i j s M) := by
  intro s
  induction s with
  | zero =>
    intro j M hij hjs h
    obtain rfl : j = n := by omega
    exact h
  | succ s ih =>
    intro j M hij hjs h
    show RegInv (LRegion n i n) A (croutLaux A i (j+1) s _)
    exact ih (j+1) _ (by omega) (by omega) (Lwrite_inv A n i j hij (by omega) M h)

lemma croutUaux_inv (A : Mat) (n i : ℕ) :
    ∀ s j M, i < j → j + s = n → RegInv (URegion n i j) A M →
      RegInv (URegion n i n) A (croutUaux A i j s M) := by
  intro s
  induction s with
  | zero =>
    intro j M hij hjs h
    obtain rfl : j = n := by omega
    exact h
  | succ s ih =>
    intro j M hij hjs h
    show RegInv (URegion n i n) A (croutUaux A i (j+1) s _)
    exact ih (j+1) _ (by omega) (by omega) (Uwrite_inv A n i j hij (by omega) M h)

lemma croutOuter_inv (A : Mat) (n : ℕ) :
    ∀ s i M, i + s = n → RegInv (written n i) A M →
      RegInv (written n n) A (croutOuter A n i s M) := by
  intro s
  induction s with
  | zero =>
    intro i M his h
    obtain rfl : i = n := by omega
    exact h
  | succ s ih =>
    intro i M his h
    have hin : i < n := by omega
    have h1 : RegInv (LRegion n i i) A M :=
      regInv_congr (fun r c => by simp only [LRegion, written]; omega) h
    have h2 := croutLaux_inv A n i (n - i) i M (le_refl i) (by omega) h1
    have h3 : RegInv (URegion n i (i+1)) A (croutLaux A i i (n - i) M) :=
      regInv_congr (fun r c => by simp only [URegion, LRegion, written]; omega) h2
    have h4 := croutUaux_inv A n i (n - (i+1)) (i+1) _ (by omega) (by omega) h3
    have h5 : RegInv (written n (i+1)) A
        (croutUaux A i (i+1) (n - (i+1)) (croutLaux A i i (n - i) M)) :=
      regInv_congr (fun r c => by simp only [URegion, LRegion, written]; omega) h4
    show RegInv (written n n) A (croutOuter A n (i+1) s _)
    exact ih (i+1) _ (by omega) h5

lemma crout_inv (A : Mat) (n : ℕ) :
    RegInv (written n n) A (Crout_factorization A n) := by
  apply croutOuter_inv A n n 0 zeroMat (by omega)
  constructor
  · intro r c _
    rfl
  · intro r c hreg
    exfalso
    simp only [written] at hreg
    omega

lemma crout_lower_eq (A : Mat) (n r c : ℕ) (hc : c ≤ r) (hr : r < n) :
    Crout_factorization A n r c
      = A r c - ∑ k in Finset.range c,
          Crout_factorization A n r k * Crout_factorization A n k c := by
  have h := (crout_inv A n).2 r c (by simp only [written]; omega)
  simpa only [croutCell, if_pos hc] using h

lemma crout_upper_eq (A : Mat) (n r c : ℕ) (hrc : r < c) (hc : c < n) :
    Crout_factorization A n r c
      = (A r c - ∑ k in Finset.range r,
          Crout_factorization A n r k * Crout_factorization A n k c)
        / Crout_factorization A n r r := by
  have h := (crout_inv A n).2 r c (by simp only [written]; omega)
  simpa only [croutCell, if_neg (by omega : ¬ c ≤ r)] using h

lemma crout_mul_eq (A : Mat) (n : ℕ)
    (hpiv : ∀ i, i < n → Crout_factorization A n i i ≠ 0)
    (r c : ℕ) (hr : r < n) (hc : c < n) :
    ∑ k in Finset.range n,
      croutL (Crout_factorization A n) n r k * croutU (Crout_factorization A n) n k c
      = A r c := by
  rcases le_or_lt c r with hle | hlt
  · have hsub : ∑ k in Finset.range n,
        croutL (Crout_factorization A n) n r k * croutU (Crout_factorization A n) n k c
        = ∑ k in Finset.range (c+1),
            croutL (Crout_factorization A n) n r k * croutU (Crout_factorization A n) n k c := by
      refine (Finset.sum_subset (Finset.range_subset.mpr (by omega)) ?_).symm
      intro k hk hks
      rw [Finset.mem_range] at hk
      rw [Finset.mem_range, not_lt] at hks
      have : croutU (Crout_factorization A n) n k c = 0 := by
        simp only [croutU, if_neg (by omega : ¬(k = c ∧ k < n)),
          if_neg (by omega : ¬(k < c ∧ c < n))]
      rw [this, mul_zero]
    rw [hsub, Finset.sum_range_succ]
    have hdiag : croutL (Crout_factorization A n) n r c * croutU (Crout_factorization A n) n c c
        = Crout_factorization A n r c := by
      simp [croutL, croutU, hle, hr, hc]
    have hrest : ∑ k in Finset.range c,
        croutL (Crout_factorization A n) n r k * croutU (Crout_factorization A n) n k c
        = ∑ k in Finset.range c,
            Crout_factorization A n r k * Crout_factorization A n k c := by
      apply Finset.sum_congr rfl
      intro k hk
      rw [Finset.mem_range] at hk
      simp only [croutL, croutU, if_pos (And.intro (by omega : k ≤ r) hr),
        if_neg (by omega : ¬(k = c ∧ k < n)), if_pos (And.intro hk hc)]
    rw [hdiag, hrest, crout_lower_eq A n r c hle hr]
    ring
  · have hsub : ∑ k in Finset.range n,
        croutL (Crout_factorization A n) n r k * croutU (Crout_factorization A n) n k c
        = ∑ k in Finset.range (r+1),
            croutL (Crout_factorization A n) n r k * croutU (Crout_factorization A n) n k c := by
      refine (Finset.sum_subset (Finset.range_subset.mpr (by omega)) ?_).symm
      intro k hk hks
      rw [Finset.mem_range] at hk
      rw [Finset.mem_range, not_lt] at hks
      have : croutL (Crout_factorization A n) n r k = 0 := by
        simp only [croutL, if_neg (by omega : ¬(k ≤ r ∧ r < n))]
      rw [this, zero_mul]
    rw [hsub, Finset.sum_range_succ]
    have hdiag : croutL (Crout_factorization A n) n r r * croutU (Crout_factorization A n) n r c
        = Crout_factorization A n r r * Crout_factorization A n r c := by
      simp only [croutL, croutU, if_pos (And.intro (le_refl r) hr),
        if_neg (by omega : ¬(r = c ∧ r < n)), if_pos (And.intro hlt hc)]
    have hrest : ∑ k in Finset.range r,
        croutL (Crout_factorization A n) n r k * croutU (Crout_factorization A n) n k c
        = ∑ k in Finset.range r,
            Crout_factorization A n r k * Crout_factorization A n k c := by
      apply Finset.sum_congr rfl
      intro k hk
      rw [Finset.mem_range] at hk
      simp only [croutL, croutU, if_pos (And.intro (by omega : k ≤ r) hr),
        if_neg (by omega : ¬(k = c ∧ k < n)), if_pos (And.intro (by omega : k < c) hc)]
    rw [hdiag, hrest, crout_upper_eq A n r c hlt hc,
      mul_div_cancel₀ _ (hpiv r hr)]
    ring

lemma fs_solves (M : Mat) (b : Vect) (n r : ℕ) (hr : r < n) (hdiag : M r r ≠ 0) :
    ∑ k in Finset.range n, croutL M n r k * (forward_substitution M b n).getD k 0 = b r := by
  have hsub : ∑ k in Finset.range n, croutL M n r k * (forward_substitution M b n).getD k 0
      = ∑ k in Finset.range (r+1), croutL M n r k * (forward_substitution M b n).getD k 0 := by
    refine (Finset.sum_subset (Finset.range_subset.mpr (by omega)) ?_).symm
    intro k hk hks
    rw [Finset.mem_range] at hk
    rw [Finset.mem_range, not_lt] at hks
    have : croutL M n r k = 0 := by
      simp only [croutL, if_neg (by omega : ¬(k ≤ r ∧ r < n))]
    rw [this, zero_mul]
  rw [hsub, Finset.sum_range_succ]
  have hrest : ∑ k in Finset.range r, croutL M n r k * (forward_substitution M b n).getD k 0
      = ∑ k in Finset.range r, M r k * (forward_substitution M b n).getD k 0 := by
    apply Finset.sum_congr rfl
    intro k hk
    rw [Finset.mem_range] at hk
    simp only [croutL, if_pos (And.intro (by omega : k ≤ r) hr)]
  have hL : croutL M n r r = M r r := by
    simp only [croutL, if_pos (And.intro (le_refl r) hr)]
  rw [hrest, hL, fs_getD_eq M b n r hr, mul_div_cancel₀ _ hdiag]
  ring

lemma bs_solves (M : Mat) (b : Vect) (n r : ℕ) (hr : r < n) :
    ∑ k in Finset.range n, croutU M n r k * (Crout_backward_substitution M b n).getD k 0
      = b r := by
  have hsplit : Finset.range n = Finset.Ico 0 (r+1) ∪ Finset.Ico (r+1) n := by
    rw [Finset.range_eq_Ico, Finset.Ico_union_Ico_eq_Ico (by omega) (by omega)]
  rw [hsplit, Finset.sum_union (by
    apply Finset.Ico_disjoint_Ico_consecutive)]
  have h1 : ∑ k in Finset.Ico 0 (r+1),
      croutU M n r k * (Crout_backward_substitution M b n).getD k 0
      = (Crout_backward_substitution M b n).getD r 0 := by
    rw [← Finset.range_eq_Ico, Finset.sum_range_succ]
    have hzero : ∑ k in Finset.range r,
        croutU M n r k * (Crout_backward_substitution M b n).getD k 0 = 0 := by
      apply Finset.sum_eq_zero
      intro k hk
      rw [Finset.mem_range] at hk
      simp only [croutU, if_neg (by omega : ¬(r = k ∧ r < n)),
        if_neg (by omega : ¬(r < k ∧ k < n)), zero_mul]
    rw [hzero]
    simp [croutU, hr]
  have h2 : ∑ k in Finset.Ico (r+1) n,
      croutU M n r k * (Crout_backward_substitution M b n).getD k 0
      = ∑ k in Finset.Ico (r+1) n, M r k * (Crout_backward_substitution M b n).getD k 0 := by
    apply Finset.sum_congr rfl
    intro k hk
    rw [Finset.mem_Ico] at hk
    simp only [croutU, if_neg (by omega : ¬(r = k ∧ r < n)),
      if_pos (And.intro (by omega : r < k) (by omega : k < n))]
  rw [h1, h2, bs_getD_eq M b n r hr]
  ring

lemma solveLU_correct (A : Mat) (b : Vect) (n : ℕ)
    (hpiv : ∀ i, i < n → Crout_factorization A n i i ≠ 0)
    (r : ℕ) (hr : r < n) :
    ∑ c in Finset.range n, A r c * (solveLU (Crout_factorization A n) b n).getD c 0 = b r := by
  unfold solveLU
  have step1 : ∑ c in Finset.range n, A r c *
        (Crout_backward_substitution (Crout_factorization A n)
          (fun i => (forward_substitution (Crout_factorization A n) b n).getD i 0) n).getD c 0
      = ∑ c in Finset.range n, ∑ k in Finset.range n,
          croutL (Crout_factorization A n) n r k * croutU (Crout_factorization A n) n k c *
            (Crout_backward_substitution (Crout_factorization A n)
              (fun i => (forward_substitution (Crout_factorization A n) b n).getD i 0) n).getD c 0 := by
    apply Finset.sum_congr rfl
    intro c hc
    rw [Finset.mem_range] at hc
    rw [← crout_mul_eq A n hpiv r c hr hc, Finset.sum_mul]
  rw [step1, Finset.sum_comm]
  have step2 : ∀ k ∈ Finset.range n,
      ∑ c in Finset.range n,
        croutL (Crout_factorization A n) n r k * croutU (Crout_factorization A n) n k c *
          (Crout_backward_substitution (Crout_factorization A n)
            (fun i => (forward_substitution (Crout_factorization A n) b n).getD i 0) n).getD c 0
      = croutL (Crout_factorization A n) n r k *
          (forward_substitution (Crout_factorization A n) b n).getD k 0 := by
    intro k hk
    rw [Finset.mem_range] at hk
    have hb := bs_solves (Crout_factorization A n)
      (fun i => (forward_substitution (Crout_factorization A n) b n).getD i 0) n k hk
    calc ∑ c in Finset.range n,
          croutL (Crout_factorization A n) n r k * croutU (Crout_factorization A n) n k c *
            (Crout_backward_substitution (Crout_factorization A n)
              (fun i => (forward_substitution (Crout_factorization A n) b n).getD i 0) n).getD c 0
        = croutL (Crout_factorization A n) n r k * ∑ c in Finset.range n,
            croutU (Crout_factorization A n) n k c *
              (Crout_backward_substitution (Crout_factorization A n)
                (fun i => (forward_substitution (Crout_factorization A n) b n).getD i 0) n).getD c 0 := by
          rw [Finset.mul_sum]
          apply Finset.sum_congr rfl
          intro c _
          ring
      _ = croutL (Crout_factorization A n) n r k *
            (forward_substitution (Crout_factorization A n) b n).getD k 0 := by
          rw [hb]
  rw [Finset.sum_congr rfl step2]
  exact fs_solves (Crout_factorization A n) b n r hr (hpiv r hr)

/-- Exception class FLDError of new_model_test.py lines 5-9. -/
structure FLDError where
  message : String
deriving DecidableEq

/-- Error message of new_model_test.py line 51 (the typo is in the source). -/
def lenMsg : String := "Inputs x and y must have the same lenghts, forming x-y pairs."

/-- Error message of new_model_test.py line 56. -/
def freqMsg : String := "At least one input frequency is different than the others. Calculations assume they are uniform."

/-- any(np.diff(f_cond)) from new_model_test.py line 55: true when some
consecutive pair of frequencies differs. -/
def anyDiff (f : List ℚ) : Bool :=
  (f.zip f.tail).any (fun p => decide (p.2 - p.1 ≠ 0))

/-- Everything the caller of E_field can observe: the returned component
arrays E_x and E_y (time by sample point), and the final contents of every
numpy array that was passed in.  The in-place augmented assignments of
new_model_test.py lines 72, 73, 75, 77 (x_cond, y_cond, V_cond, p_cond)
mutate the caller arrays; all other conversions rebind local names, leaving
the caller arrays untouched. -/
structure EFieldOut where
  E_x : List (List ℚ)
  E_y : List (List ℚ)
  f_cond : List ℚ
  x_cond : List ℚ
  y_cond : List ℚ
  subconds : List ℚ
  d_cond : List ℚ
  d_bund : List ℚ
  V_cond : List ℚ
  I_cond : List ℚ
  p_cond : List ℚ
  x : List ℚ
  y : List ℚ
deriving DecidableEq

/-- E_field from new_model_test.py lines 42-131, over exact rationals.
The transcendental kernels are parameters: cosf for np.cos, logf for np.log,
rpow for the fractional power of line 68, pi for np.pi, sqrt3 for
np.sqrt(3).  Conversion constants: 0.3048 = 3048/10000 (feet to meters),
0.0254 = 254/10000 (inches to meters), epsilon = 8.854e-12.  Arrays are
lists of rationals read through getD; elementwise numpy expressions become
index functions.  The two raise statements (lines 50-51 and 55-56) are the
only exits that do not return field arrays. -/
def E_field (cosf logf : ℚ → ℚ) (rpow : ℚ → ℚ → ℚ) (pi sqrt3 : ℚ)
    (f_cond x_cond y_cond subconds d_cond d_bund V_cond I_cond p_cond x y : List ℚ) :
    Except FLDError EFieldOut :=
  if x.length ≠ y.length then .error ⟨lenMsg⟩
  else if anyDiff f_cond then .error ⟨freqMsg⟩
  else
    let T := 1 / f_cond.getD 0 0
    let t : List ℚ := (List.range 1001).map (fun k => T * (k : ℚ) / 1000)
    let epsilon : ℚ := 8854 / 1000000000000000
    let C := 1 / (2 * pi * epsilon)
    let L := t.length
    let N := f_cond.length
    let Z := x.length
    let d_eff := fun i => d_bund.getD i 0 *
      rpow (subconds.getD i 0 * d_cond.getD i 0 / d_bund.getD i 0) (1 / subconds.getD i 0)
    let w_cond := fun i => 2 * pi * f_cond.getD i 0 / 360
    let xc := fun i => x_cond.getD i 0 * (3048/10000)
    let yc := fun i => y_cond.getD i 0 * (3048/10000)
    let dc := fun i => d_eff i * (254/10000)
    let Vc := fun i => V_cond.getD i 0 * (1/sqrt3)
    let pc := fun i => p_cond.getD i 0 * (2*pi/360)
    let xs := fun i => x.getD i 0 * (3048/10000)
    let ys := fun i => y.getD i 0 * (3048/10000)
    let P : Mat := fun i j =>
      if i = j then C * logf (4 * yc i / dc i)
      else C * (((xc i - xc j)^2 + (yc i + yc j)^2)
                / ((xc i - xc j)^2 + (yc i - yc j)^2))
    let P_LU := Crout_factorization P N
    let V := fun (k i : ℕ) => Vc i * cosf (w_cond i * t.getD k 0 + pc i)
    let Q := fun (k : ℕ) => solveLU P_LU (fun i => V k i) N
    let E_x := (List.range L).map (fun j => (List.range Z).map (fun i =>
      ((List.range N).map (fun k =>
        let nx := C * (Q j).getD k 0 * (xc k - xs i)
        let d1 := (xc k - xs i)^2 + (yc k - ys i)^2
        let d2 := (xc k - xs i)^2 + (yc k + ys i)^2
        nx/d1 - nx/d2)).sum))
    let E_y := (List.range L).map (fun j => (List.range Z).map (fun i =>
      ((List.range N).map (fun k =>
        let ny1 := C * (Q j).getD k 0 * (yc k - ys i)
        let ny2 := C * (Q j).getD k 0 * (yc k + ys i)
        let d1 := (xc k - xs i)^2 + (yc k - ys i)^2
        let d2 := (xc k - xs i)^2 + (yc k + ys i)^2
        ny1/d1 - ny2/d2)).sum))
    .ok { E_x := E_x, E_y := E_y,
          f_cond := f_cond,
          x_cond := x_cond.map (fun v => v * (3048/10000)),
          y_cond := y_cond.map (fun v => v * (3048/10000)),
          subconds := subconds,
          d_cond := d_cond,
          d_bund := d_bund,
          V_cond := V_cond.map (fun v => v * (1/sqrt3)),
          I_cond := I_cond,
          p_cond := p_cond.map (fun v => v * (2*pi/360)),
          x := x, y := y }

/-- Errors surfacing from emf/fields/fields_funks.py: emf carries an
EMFError message (fields_class.EMFError), typeError and nameError model
exceptions raised by the Python runtime itself.  Message strings keep the
source wording but drop the interpolated values. -/
inductive PyErr where
  | emf (message : String)
  | typeError (message : String)
  | nameError (message : String)
deriving DecidableEq

/-- Message of fields_funks.py lines 181-187. -/
def multipleMsg : String := "The number of hot (not grounded) conductors must be a multiple of three for phase optimization with all circuits."

/-- The runtime error produced by fields_funks.py line 195: iterating over
an int. -/
def intIterMsg : String := "int object is not iterable"

/-- Message of fields_funks.py lines 434-438. -/
def bracketMsg : String := "The root is not bracketed with an upper height adjustment limit. Rootfinding with bisection cannot be performed."

/-- Message of fields_funks.py lines 459-462. -/
def iterMsg : String := "Failure in _bisection method. The iteration limit was exceeded."

/-- The runtime error produced by fields_funks.py line 384: the name
SectionBook is used unqualified, but the module only imports fields_class
(its other constructions, lines 45 and 241, write fields_class.SectionBook),
so evaluating the name raises NameError. -/
def sectionBookMsg : String := "name SectionBook is not defined"

/-- Preparation of the circuits list in optimize_phasing for
circuits equal to the string all (fields_funks.py lines 176-191): fail when
the hot-conductor count N is not a multiple of three, otherwise build the
consecutive groups range(i*3, i*3 + 3) for i in range(N/3). -/
def optimize_phasing_all_circuits (N : ℕ) : Except PyErr (List (List ℕ)) :=
  if N % 3 ≠ 0 then .error (.emf multipleMsg)
  else .ok ((List.range (N/3)).map (fun i => List.range' (i*3) 3))

/-- Index validation branch of optimize_phasing for an explicit circuits
list (fields_funks.py lines 192-198).  The source reads:
for circ in range(len(circuits)): for idx in circ: ...
so circ is bound to the integers 0..len(circuits)-1 and the inner statement
iterates over an int, which raises TypeError as soon as the outer loop runs
at all, i.e. whenever circuits is nonempty; the intended integer check and
its EMFError are unreachable. -/
def optimize_phasing_check_circuits (circuits : List (List ℤ)) : Except PyErr Unit :=
  match circuits with
  | [] => .ok ()
  | _ :: _ => .error (.typeError intIterMsg)

/-- _flatten of emf_funks (not in the source tree); used by _phasing_test
only to concatenate the per-circuit index tuples into one flat index list. -/
def _flatten (l : List (List ℕ)) : List ℕ := l.flatten

/-- Sequential fancy-indexed store phasing[conds] = phase[new_arr]
(fields_funks.py line 301): positions conds get the values phase[new_arr],
assigned left to right. -/
def setIdx (v : List ℚ) (idxs : List ℕ) (vals : List ℚ) : List ℚ :=
  ((idxs.zip vals).foldl (fun acc p => acc.set p.1 p.2) v)

/-- Modelled from the spec: _phasing_test (fields_funks.py lines 278-309)
computes Bmax and Emax at the two ROW edges for one phasing arrangement by
calling fields_calcs.E_field, fields_calcs.B_field and
fields_calcs.phasors_to_magnitudes, none of which are in the source tree.
That evaluation is abstracted as the parameter metric, a function of the
swapped phasing array returning ((Bmax left, Bmax right),
(Emax left, Emax right)); the index flattening and the phase swap of lines
299-301 are kept concrete. -/
def _phasing_test (metric : List ℚ → (ℚ × ℚ) × (ℚ × ℚ)) (phase : List ℚ)
    (conds : List ℕ) (arr : List (List ℕ)) : ((ℚ × ℚ) × (ℚ × ℚ)) × List ℕ :=
  let new_arr := _flatten arr
  let phasing := setIdx phase conds (new_arr.map (fun k => phase.getD k 0))
  (metric phasing, new_arr)

/-- The four running minima and best arrangements of optimize_phasing
(fields_funks.py lines 207-209), with numpy inf modeled as the top element
of WithTop rationals. -/
structure OptState where
  Blmin : WithTop ℚ
  Blarr : List ℕ
  Brmin : WithTop ℚ
  Brarr : List ℕ
  Elmin : WithTop ℚ
  Elarr : List ℕ
  Ermin : WithTop ℚ
  Erarr : List ℕ

/-- One pass of the candidate loop of optimize_phasing (fields_funks.py
lines 221-232): evaluate the arrangement and update each of the four minima
independently, only on a strict improvement. -/
def optStep (metric : List ℚ → (ℚ × ℚ) × (ℚ × ℚ)) (phase : List ℚ) (conds : List ℕ)
    (st : OptState) (arr : List (List ℕ)) : OptState :=
  let r := _phasing_test metric phase conds arr
  let Bl : WithTop ℚ := (r.1.1.1 : ℚ)
  let Br : WithTop ℚ := (r.1.1.2 : ℚ)
  let El : WithTop ℚ := (r.1.2.1 : ℚ)
  let Er : WithTop ℚ := (r.1.2.2 : ℚ)
  { Blmin := if Bl < st.Blmin then Bl else st.Blmin,
    Blarr := if Bl < st.Blmin then r.2 else st.Blarr,
    Brmin := if Br < st.Brmin then Br else st.Brmin,
    Brarr := if Br < st.Brmin then r.2 else st.Brarr,
    Elmin := if El < st.Elmin then El else st.Elmin,
    Elarr := if El < st.Elmin then r.2 else st.Elarr,
    Ermin := if Er < st.Ermin then Er else st.Ermin,
    Erarr := if Er < st.Ermin then r.2 else st.Erarr }

/-- itertools.product over the per-circuit permutation lists
(fields_funks.py lines 199-206): all ways of choosing one permutation per
circuit. -/
def listProd {α : Type} : List (List α) → List (List α)
  | [] => [[]]
  | l :: ls => (l.map (fun x => (listProd ls).map (fun xs => x :: xs))).flatten

/-- The permutation search of optimize_phasing (fields_funks.py lines
199-232): per-circuit permutations, their product, and the fold tracking
the four running minima starting from np.inf. -/
def optimize_phasing_search (metric : List ℚ → (ℚ × ℚ) × (ℚ × ℚ)) (phase : List ℚ)
    (circuits : List (List ℕ)) : OptState :=
  let perm := circuits.map List.permutations
  let P := listProd perm
  let conds := _flatten circuits
  P.foldl (optStep metric phase conds) ⟨⊤, [], ⊤, [], ⊤, [], ⊤, []⟩

/-- The while loop of _bisect (fields_funks.py lines 443-456) plus the
post-loop iteration-cap check (lines 457-463).  The function f stands for
funk with all arguments except the height fixed, so fmid = f hmid; flow and
fhigh are never reassigned inside the source loop and are therefore plain
parameters.  On entry count = 1 and hmid is the first midpoint, matching
lines 439-442. -/
def bisectLoop (f : ℚ → ℚ) (target rel_err flow fhigh hlow hhigh hmid : ℚ)
    (count max_iter : ℕ) : Except PyErr ℚ :=
  if h : rel_err < |f hmid / target| ∧ count < max_iter then
    if 0 < f hmid * flow then
      bisectLoop f target rel_err flow fhigh hmid hhigh ((hhigh + hmid)/2) (count+1) max_iter
    else if 0 < f hmid * fhigh then
      bisectLoop f target rel_err flow fhigh hlow hmid ((hmid + hlow)/2) (count+1) max_iter
    else if f hmid = 0 then .ok hmid
    else
      bisectLoop f target rel_err flow fhigh hlow hhigh ((hhigh + hlow)/2) (count+1) max_iter
  else if count = max_iter then .error (.emf iterMsg)
  else .ok hmid
termination_by max_iter - count
decreasing_by
  all_goals omega

/-- _bisect from fields_funks.py lines 425-463: evaluate f at the two
bracket endpoints, fail with the bracketing EMFError when the product of
the endpoint values is strictly positive, otherwise run the bisection loop
starting from the first midpoint with count = 1. -/
def _bisect (f : ℚ → ℚ) (target hlow hhigh : ℚ) (max_iter : ℕ) (rel_err : ℚ) :
    Except PyErr ℚ :=
  let flow := f hlow
  let fhigh := f hhigh
  if 0 < flow * fhigh then .error (.emf bracketMsg)
  else bisectLoop f target rel_err flow fhigh hlow hhigh ((hhigh + hlow)/2) 1 max_iter

/-- Python truthiness of a target threshold argument of target_fields:
None and 0 are falsy, any other number is truthy. -/
def truthy : Option ℚ → Bool
  | none => false
  | some v => decide (v ≠ 0)

/-- Result target_fields is documented to produce: the four height
adjustments in order (B_left, B_right, E_left, E_right), with none for a
skipped target, and the list of height-adjusted sections stored in the
returned SectionBook, each reduced to its name and its height increment.
The source never actually constructs this value (see target_fields). -/
structure TFOut where
  h : Option ℚ × Option ℚ × Option ℚ × Option ℚ
  sections : List (String × ℚ)
deriving DecidableEq

/-- Modelled from the spec: target_fields (fields_funks.py lines 311-423)
drives _bisect through _B_funk and _E_funk, which call the absent
fields_calcs module; the four metric-minus-target functions are abstracted
as fBl, fBr, fEl, fEr applied to the height increment (each already equals
metric at that ROW edge minus the corresponding target, exactly the
function handed to _bisect).  The control flow of the source is kept: one
guarded bisection per truthy target (lines 370-381; a bisection error
propagates), then line 384 evaluates the unqualified name SectionBook in
adj = SectionBook(...) - the module imports only fields_class, so this
raises NameError on every call that reaches it.  Everything after line 384
(the percent-f subtitle formatting, the section loop and the return of h
and adj) is unreachable and therefore not modeled. -/
def target_fields (fBl fBr fEl fEr : ℚ → ℚ) (B_l B_r E_l E_r : Option ℚ)
    (max_iter : ℕ) (rel_err hhigh : ℚ) : Except PyErr TFOut :=
  let hlow : ℚ := 0
  (if truthy B_l then
      Option.some <$> _bisect fBl (B_l.getD 0) hlow hhigh max_iter rel_err
    else pure none) >>= fun _h_B_l =>
  (if truthy B_r then
      Option.some <$> _bisect fBr (B_r.getD 0) hlow hhigh max_iter rel_err
    else pure none) >>= fun _h_B_r =>
  (if truthy E_l then
      Option.some <$> _bisect fEl (E_l.getD 0) hlow hhigh max_iter rel_err
    else pure none) >>= fun _h_E_l =>
  (if truthy E_r then
      Option.some <$> _bisect fEr (E_r.getD 0) hlow hhigh max_iter rel_err
    else pure none) >>= fun _h_E_r =>
  .error (.nameError sectionBookMsg)

lemma bisectLoop_ne_bracket (f : ℚ → ℚ) (target rel_err flow fhigh hlow hhigh hmid : ℚ)
    (count max_iter : ℕ) :
    bisectLoop f target rel_err flow fhigh hlow hhigh hmid count max_iter
      ≠ .error (.emf bracketMsg) := by
  induction hlow, hhigh, hmid, count, max_iter
    using bisectLoop.induct f target rel_err flow fhigh with
  | case1 hlow hhigh hmid count max_iter h hp ih =>
    rw [bisectLoop, dif_pos h, if_pos hp]
    exact ih
  | case2 hlow hhigh hmid count max_iter h hp hp2 ih =>
    rw [bisectLoop, dif_pos h, if_neg hp, if_pos hp2]
    exact ih
  | case3 hlow hhigh hmid count max_iter h hp hp2 hz =>
    rw [bisectLoop, dif_pos h, if_neg hp, if_neg hp2, if_pos hz]
    simp
  | case4 hlow hhigh hmid count max_iter h hp hp2 hz ih =>
    rw [bisectLoop, dif_pos h, if_neg hp, if_neg hp2, if_neg hz]
    exact ih
  | case5 hlow hhigh hmid max_iter h =>
    rw [bisectLoop, dif_neg h, if_pos rfl]
    intro hcontra
    have h2 : iterMsg = bracketMsg := PyErr.emf.inj (Except.error.inj hcontra)
    simp [iterMsg, bracketMsg] at h2
  | case6 hlow hhigh hmid count max_iter h hc =>
    rw [bisectLoop, dif_neg h, if_neg hc]
    simp

lemma foldl_min_mono {α σ : Type} (step : σ → α → σ) (proj : σ → WithTop ℚ)
    (h1 : ∀ st a, proj (step st a) ≤ proj st) :
    ∀ (l : List α) (st : σ), proj (l.foldl step st) ≤ proj st := by
  intro l
  induction l with
  | nil => intro st; exact le_refl _
  | cons a l ih => intro st; exact le_trans (ih (step st a)) (h1 st a)

lemma foldl_min_le {α σ : Type} (step : σ → α → σ) (proj : σ → WithTop ℚ) (v : α → WithTop ℚ)
    (h1 : ∀ st a, proj (step st a) ≤ proj st)
    (h2 : ∀ st a, proj (step st a) ≤ v a) :
    ∀ (l : List α) (st : σ) (a : α), a ∈ l → proj (l.foldl step st) ≤ v a := by
  intro l
  induction l with
  | nil => intro st a ha; exact absurd ha (List.not_mem_nil a)
  | cons b l ih =>
    intro st a ha
    rcases List.mem_cons.mp ha with rfl | ha
    · exact le_trans (foldl_min_mono step proj h1 l (step st a)) (h2 st a)
    · exact ih (step st b) a ha

lemma set_getD_self : ∀ (l : List ℚ) (i : ℕ), l.set i (l.getD i 0) = l := by
  intro l
  induction l with
  | nil => intro i; rfl
  | cons a l ih =>
    intro i
    cases i with
    | zero => simp
    | succ i =>
      simp only [List.set_cons_succ, List.getD_cons_succ]
      rw [ih i]

lemma setIdx_id (phase : List ℚ) :
    setIdx phase [0,1,2] (([0,1,2] : List ℕ).map (fun k => phase.getD k 0)) = phase := by
  show ((phase.set 0 (phase.getD 0 0)).set 1 (phase.getD 1 0)).set 2 (phase.getD 2 0) = phase
  rw [set_getD_self, set_getD_self, set_getD_self]

/-- C1 (amended): for a matrix A whose Crout factorization (with the
np.empty workspace modeled as zeros) produces nonzero diagonal pivots, the
pipeline Crout_factorization then forward_substitution then
Crout_backward_substitution returns x with A*x = b; in particular, when A
is the identity matrix the returned x equals b entrywise.  The original
claim quantified over every nonsingular matrix; without pivoting that fails
(see the counterexample), so nonsingularity is strengthened to nonzero
Crout pivots. -/
theorem C1_crout_pipeline_roundtrip (n : ℕ) (A : Mat) (b : Vect)
    (hpiv : ∀ i, i < n → Crout_factorization A n i i ≠ 0) :
    (∀ r, r < n →
      ∑ c in Finset.range n,
        A r c * (solveLU (Crout_factorization A n) b n).getD c 0 = b r)
    ∧ ((∀ r c, r < n → c < n → A r c = if r = c then 1 else 0) →
       ∀ r, r < n → (solveLU (Crout_factorization A n) b n).getD r 0 = b r) := by
  constructor
  · intro r hr
    exact solveLU_correct A b n hpiv r hr
  · intro hid r hr
    have h := solveLU_correct A b n hpiv r hr
    rw [Finset.sum_congr rfl (fun c hc => by
      rw [hid r c hr (Finset.mem_range.mp hc)])] at h
    rw [Finset.sum_congr rfl (fun c _ => by
      rw [ite_mul, one_mul, zero_mul] :
        ∀ c ∈ Finset.range n, (if r = c then (1:ℚ) else 0) *
          (solveLU (Crout_factorization A n) b n).getD c 0
          = if r = c then (solveLU (Crout_factorization A n) b n).getD c 0 else 0),
      Finset.sum_ite_eq, if_pos (Finset.mem_range.mpr hr)] at h
    exact h

/-- C1 witness: a concrete well-pivoted 2 by 2 system solved by the
pipeline, with the hypotheses checked by evaluation. -/
theorem C1_crout_pipeline_roundtrip_witness :
    (∀ i, i < 2 →
      Crout_factorization (fun r c => if r = c then (2:ℚ) else 1) 2 i i ≠ 0)
    ∧ (∀ r, r < 2 →
      ∑ c in Finset.range 2,
        (fun r c => if r = c then (2:ℚ) else 1) r c *
          (solveLU (Crout_factorization (fun r c => if r = c then (2:ℚ) else 1) 2)
            (fun _ => 3) 2).getD c 0 = (fun _ => (3:ℚ)) r) :=
  ⟨by decide,
   (C1_crout_pipeline_roundtrip 2 (fun r c => if r = c then (2:ℚ) else 1)
     (fun _ => 3) (by decide)).1⟩

/-- C1 counterexample: the permutation matrix A = [[0,1],[1,0]] is
nonsingular (it is its own inverse), but the solve pipeline applied to it
and b = (1,1) returns x = (0,0), which does not satisfy A*x = b: Crout
factorization without pivoting divides by the zero leading pivot. -/
theorem C1_counterexample :
    (∀ r, r < 2 → ∀ c, c < 2 →
      ∑ k in Finset.range 2,
        (fun a b => if a = b then (0:ℚ) else 1) r k *
          (fun a b => if a = b then (0:ℚ) else 1) k c
        = (if r = c then 1 else 0))
    ∧ solveLU (Crout_factorization (fun a b => if a = b then (0:ℚ) else 1) 2)
        (fun _ => 1) 2 = [0, 0]
    ∧ ¬ (∀ r, r < 2 →
        ∑ c in Finset.range 2,
          (fun a b => if a = b then (0:ℚ) else 1) r c *
            (solveLU (Crout_factorization (fun a b => if a = b then (0:ℚ) else 1) 2)
              (fun _ => 1) 2).getD c 0 = 1) := by
  decide

/-- Forward substitution as the spec words it: L has unit diagonal, so
x[i] = b[i] - sum over j lt i of A[i,j]*x[j], never dividing by a stored
diagonal entry.  Written from the spec for comparison with the source
function forward_substitution. -/
def spec_forward_substitution_unit (A : Mat) (b : Vect) : ℕ → List ℚ
  | 0 => []
  | n+1 =>
    let x := spec_forward_substitution_unit A b n
    x ++ [b n - ((List.range n).map (fun j => A n j * x.getD j 0)).sum]

/-- Helper for spec_backward_substitution_div, mirroring bsAux but dividing
each solved entry by the stored diagonal entry, as the spec words it. -/
def spec_bsAux_div (A : Mat) (b : Vect) (n : ℕ) : ℕ → List ℚ
  | 0 => []
  | s+1 =>
    ((b (n-1-s) - ((List.range' (n-s) s).map
      (fun j => A (n-1-s) j * (spec_bsAux_div A b n s).getD (j-(n-s)) 0)).sum)
        / A (n-1-s) (n-1-s)) :: spec_bsAux_div A b n s

/-- Backward substitution as the spec words it: U keeps the stored diagonal
as its pivots, so each entry is divided by A[i,i]. -/
def spec_backward_substitution_div (A : Mat) (b : Vect) (n : ℕ) : List ℚ :=
  spec_bsAux_div A b n n

/-- C4 counterexample: on the 1 by 1 system with stored diagonal 2 and
b = 1, the source forward_substitution returns 1/2 (it divides by the
stored diagonal) while the unit-diagonal forward solve of the claim returns
1, and the source Crout_backward_substitution returns 1 (no division) while
the dividing backward solve of the claim returns 1/2: the claim has the two
roles swapped. -/
theorem C4_counterexample :
    forward_substitution (fun _ _ => (2:ℚ)) (fun _ => 1) 1
        ≠ spec_forward_substitution_unit (fun _ _ => (2:ℚ)) (fun _ => 1) 1
    ∧ Crout_backward_substitution (fun _ _ => (2:ℚ)) (fun _ => 1) 1
        ≠ spec_backward_substitution_div (fun _ _ => (2:ℚ)) (fun _ => 1) 1 := by
  decide

/-- C4 (amended): in the combined Crout storage the roles are the opposite
of the claim: forward_substitution solves L*y = b with L holding the stored
diagonal as its pivots (the coefficient of y[i] in row i is the stored
A[i,i], i.e. it divides by the stored diagonal), and
Crout_backward_substitution solves U*x = y treating U's diagonal as unit
(the coefficient of x[i] is 1; it never divides). -/
theorem C4_substitution_roles (A : Mat) (b : Vect) (n : ℕ)
    (hdiag : ∀ i, i < n → A i i ≠ 0) :
    (∀ i, i < n →
      A i i * (forward_substitution A b n).getD i 0
        + ∑ j in Finset.range i, A i j * (forward_substitution A b n).getD j 0 = b i)
    ∧ (∀ i, i < n →
      (Crout_backward_substitution A b n).getD i 0
        + ∑ j in Finset.Ico (i+1) n,
            A i j * (Crout_backward_substitution A b n).getD j 0 = b i) := by
  constructor
  · intro i hi
    rw [fs_getD_eq A b n i hi, mul_div_cancel₀ _ (hdiag i hi)]
    ring
  · intro i hi
    rw [bs_getD_eq A b n i hi]
    ring

/-- C4 witness: the amended statement evaluated on a concrete 2 by 2
system. -/
theorem C4_substitution_roles_witness :
    (∀ i, i < 2 → (fun r c => if r = c then (2:ℚ) else 1) i i ≠ 0)
    ∧ (∀ i, i < 2 →
      (fun r c => if r = c then (2:ℚ) else 1) i i *
          (forward_substitution (fun r c => if r = c then (2:ℚ) else 1) (fun _ => 4) 2).getD i 0
        + ∑ j in Finset.range i,
            (fun r c => if r = c then (2:ℚ) else 1) i j *
              (forward_substitution (fun r c => if r = c then (2:ℚ) else 1)
                (fun _ => 4) 2).getD j 0 = (fun _ => (4:ℚ)) i)
    ∧ (∀ i, i < 2 →
      (Crout_backward_substitution (fun r c => if r = c then (2:ℚ) else 1)
          (fun _ => 4) 2).getD i 0
        + ∑ j in Finset.Ico (i+1) 2,
            (fun r c => if r = c then (2:ℚ) else 1) i j *
              (Crout_backward_substitution (fun r c => if r = c then (2:ℚ) else 1)
                (fun _ => 4) 2).getD j 0 = (fun _ => (4:ℚ)) i) :=
  ⟨by decide,
   (C4_substitution_roles (fun r c => if r = c then (2:ℚ) else 1) (fun _ => 4) 2
     (by decide)).1,
   (C4_substitution_roles (fun r c => if r = c then (2:ℚ) else 1) (fun _ => 4) 2
     (by decide)).2⟩

/-- C5: with circuits equal to the string all, optimize_phasing raises the
input-shape EMFError if and only if the hot-conductor count N is not a
multiple of three; otherwise it builds the consecutive groups of three
indices 0-2, 3-5, ... and proceeds. -/
theorem C5_all_circuits (N : ℕ) :
    ((optimize_phasing_all_circuits N).isOk = true ↔ N % 3 = 0)
    ∧ (N % 3 = 0 →
       optimize_phasing_all_circuits N
         = .ok ((List.range (N/3)).map (fun i => [i*3, i*3+1, i*3+2]))) := by
  constructor
  · constructor
    · intro h
      by_contra hmod
      rw [optimize_phasing_all_circuits, if_pos hmod] at h
      simp [Except.isOk, Except.toBool] at h
    · intro h
      rw [optimize_phasing_all_circuits, if_neg (by omega)]
      rfl
  · intro h
    rw [optimize_phasing_all_circuits, if_neg (by omega)]
    rfl

/-- C5 witness: six hot conductors partition into two consecutive triples;
five hot conductors are rejected. -/
theorem C5_all_circuits_witness :
    optimize_phasing_all_circuits 6 = .ok [[0,1,2],[3,4,5]]
    ∧ (optimize_phasing_all_circuits 5).isOk = false := by
  constructor
  · rw [(C5_all_circuits 6).2 (by norm_num)]
    rfl
  · have h2 : ¬ ((optimize_phasing_all_circuits 5).isOk = true) := by
      intro hh
      have h3 := (C5_all_circuits 5).1.mp hh
      omega
    exact Bool.eq_false_iff.mpr h2

/-- C6 (code bug): with an explicit nonempty circuits list, the index
validation loop of optimize_phasing iterates over an int (for circ in
range(len(circuits)) followed by for idx in circ) and therefore raises
TypeError even when every circuit index is a non-negative integer; the
intended integer check never runs and the permutation search is never
reached. -/
theorem C6_circuits_check (circuits : List (List ℤ)) (h : circuits ≠ []) :
    optimize_phasing_check_circuits circuits = .error (.typeError intIterMsg) := by
  cases circuits with
  | nil => exact absurd rfl h
  | cons c cs => rfl

/-- C6 witness: the failing input of the claim, a single circuit of the
integer indices 0, 1, 2. -/
theorem C6_circuits_check_witness :
    optimize_phasing_check_circuits [[0,1,2]] = .error (.typeError intIterMsg) :=
  C6_circuits_check [[0,1,2]] (by simp)

/-- C7 counterexample: with f the identity, bracket [0, 1], target 10^7 and
the default cap and tolerance, the endpoint values f(0) = 0 and f(1) = 1 do
not have opposite signs (their product is zero, not negative), yet _bisect
raises no error at all: it proceeds and returns the first midpoint 1/2,
because the source only raises when the product is strictly positive. -/
theorem C7_counterexample :
    ¬ ((fun h : ℚ => h) 0 * (fun h : ℚ => h) 1 < 0)
    ∧ _bisect (fun h : ℚ => h) 10000000 0 1 1000 (1/1000000) = .ok (1/2) := by
  constructor
  · norm_num
  · simp only [_bisect]
    rw [if_neg (by norm_num)]
    rw [bisectLoop]
    rw [dif_neg (by
      rw [abs_of_nonneg (by norm_num)]
      norm_num)]
    rw [if_neg (by omega)]
    norm_num

/-- C7 (amended): _bisect fails with the bracketing domain error, before
any midpoint iteration, exactly when the product of the endpoint
evaluations f(hlow) and f(hhigh) is strictly positive (both nonzero with
the same sign); a zero endpoint value, although not of opposite sign, does
not trigger the error.  It never re-brackets, and when the product is not
strictly positive the bracketing error is never raised (the loop can only
return a height or the distinct iteration-cap error). -/
theorem C7_bisect_bracket_iff (f : ℚ → ℚ) (target hlow hhigh rel_err : ℚ)
    (max_iter : ℕ) :
    _bisect f target hlow hhigh max_iter rel_err = .error (.emf bracketMsg)
      ↔ 0 < f hlow * f hhigh := by
  constructor
  · intro h
    by_contra hneg
    simp only [_bisect] at h
    rw [if_neg hneg] at h
    exact bisectLoop_ne_bracket f target rel_err (f hlow) (f hhigh)
      hlow hhigh ((hhigh + hlow)/2) 1 max_iter h
  · intro h
    simp only [_bisect]
    rw [if_pos h]

lemma optStep_Blmin_le_state (metric : List ℚ → (ℚ × ℚ) × (ℚ × ℚ)) (phase : List ℚ)
    (conds : List ℕ) (st : OptState) (arr : List (List ℕ)) :
    (optStep metric phase conds st arr).Blmin ≤ st.Blmin := by
  simp only [optStep]
  split
  next h => exact le_of_lt h
  next h => exact le_refl _

lemma optStep_Blmin_le_val (metric : List ℚ → (ℚ × ℚ) × (ℚ × ℚ)) (phase : List ℚ)
    (conds : List ℕ) (st : OptState) (arr : List (List ℕ)) :
    (optStep metric phase conds st arr).Blmin
      ≤ ((_phasing_test metric phase conds arr).1.1.1 : WithTop ℚ) := by
  simp only [optStep]
  split
  next h => exact le_refl _
  next h => exact le_of_not_lt h

lemma optStep_Brmin_le_state (metric : List ℚ → (ℚ × ℚ) × (ℚ × ℚ)) (phase : List ℚ)
    (conds : List ℕ) (st : OptState) (arr : List (List ℕ)) :
    (optStep metric phase conds st arr).Brmin ≤ st.Brmin := by
  simp only [optStep]
  split
  next h => exact le_of_lt h
  next h => exact le_refl _

lemma optStep_Brmin_le_val (metric : List ℚ → (ℚ × ℚ) × (ℚ × ℚ)) (phase : List ℚ)
    (conds : List ℕ) (st : OptState) (arr : List (List ℕ)) :
    (optStep metric phase conds st arr).Brmin
      ≤ ((_phasing_test metric phase conds arr).1.1.2 : WithTop ℚ) := by
  simp only [optStep]
  split
  next h => exact le_refl _
  next h => exact le_of_not_lt h

lemma optStep_Elmin_le_state (metric : List ℚ → (ℚ × ℚ) × (ℚ × ℚ)) (phase : List ℚ)
    (conds : List ℕ) (st : OptState) (arr : List (List ℕ)) :
    (optStep metric phase conds st arr).Elmin ≤ st.Elmin := by
  simp only [optStep]
  split
  next h => exact le_of_lt h
  next h => exact le_refl _

lemma optStep_Elmin_le_val (metric : List ℚ → (ℚ × ℚ) × (ℚ × ℚ)) (phase : List ℚ)
    (conds : List ℕ) (st : OptState) (arr : List (List ℕ)) :
    (optStep metric phase conds st arr).Elmin
      ≤ ((_phasing_test metric phase conds arr).1.2.1 : WithTop ℚ) := by
  simp only [optStep]
  split
  next h => exact le_refl _
  next h => exact le_of_not_lt h

lemma optStep_Ermin_le_state (metric : List ℚ → (ℚ × ℚ) × (ℚ × ℚ)) (phase : List ℚ)
    (conds : List ℕ) (st : OptState) (arr : List (List ℕ)) :
    (optStep metric phase conds st arr).Ermin ≤ st.Ermin := by
  simp only [optStep]
  split
  next h => exact le_of_lt h
  next h => exact le_refl _

lemma optStep_Ermin_le_val (metric : List ℚ → (ℚ × ℚ) × (ℚ × ℚ)) (phase : List ℚ)
    (conds : List ℕ) (st : OptState) (arr : List (List ℕ)) :
    (optStep metric phase conds st arr).Ermin
      ≤ ((_phasing_test metric phase conds arr).1.2.2 : WithTop ℚ) := by
  simp only [optStep]
  split
  next h => exact le_refl _
  next h => exact le_of_not_lt h

/-- C3: for a single three-conductor circuit (circuits = [[0,1,2]]), each
of the four running minima reported by the optimize_phasing search is at
most the corresponding metric value of the original, unpermuted phase
assignment: the identity ordering is one of the enumerated candidates (its
swap leaves the phase array unchanged), and a running minimum is only ever
replaced by a strictly smaller value.  The per-candidate ROW-edge metric is
the abstract parameter metric, standing for the absent fields_calcs
routines. -/
theorem C3_optimize_phasing_best_le_original
    (metric : List ℚ → (ℚ × ℚ) × (ℚ × ℚ)) (phase : List ℚ) :
    (optimize_phasing_search metric phase [[0,1,2]]).Blmin ≤ ((metric phase).1.1 : WithTop ℚ)
    ∧ (optimize_phasing_search metric phase [[0,1,2]]).Brmin ≤ ((metric phase).1.2 : WithTop ℚ)
    ∧ (optimize_phasing_search metric phase [[0,1,2]]).Elmin ≤ ((metric phase).2.1 : WithTop ℚ)
    ∧ (optimize_phasing_search metric phase [[0,1,2]]).Ermin ≤ ((metric phase).2.2 : WithTop ℚ) := by
  have hmem : [[0,1,2]] ∈ listProd (([[0,1,2]] : List (List ℕ)).map List.permutations) := by
    decide
  have hval : _phasing_test metric phase (_flatten [[0,1,2]]) [[0,1,2]]
      = (metric phase, [0,1,2]) := by
    simp only [_phasing_test, _flatten]
    rw [show (([[0,1,2]] : List (List ℕ)).flatten) = [0,1,2] from rfl, setIdx_id]
  refine ⟨?_, ?_, ?_, ?_⟩
  · have h := foldl_min_le (optStep metric phase (_flatten [[0,1,2]]))
      (fun st => st.Blmin)
      (fun arr => ((_phasing_test metric phase (_flatten [[0,1,2]]) arr).1.1.1 : WithTop ℚ))
      (fun st arr => optStep_Blmin_le_state metric phase _ st arr)
      (fun st arr => optStep_Blmin_le_val metric phase _ st arr)
      (listProd (([[0,1,2]] : List (List ℕ)).map List.permutations))
      ⟨⊤, [], ⊤, [], ⊤, [], ⊤, []⟩ [[0,1,2]] hmem
    simp only [hval] at h
    exact h
  · have h := foldl_min_le (optStep metric phase (_flatten [[0,1,2]]))
      (fun st => st.Brmin)
      (fun arr => ((_phasing_test metric phase (_flatten [[0,1,2]]) arr).1.1.2 : WithTop ℚ))
      (fun st arr => optStep_Brmin_le_state metric phase _ st arr)
      (fun st arr => optStep_Brmin_le_val metric phase _ st arr)
      (listProd (([[0,1,2]] : List (List ℕ)).map List.permutations))
      ⟨⊤, [], ⊤, [], ⊤, [], ⊤, []⟩ [[0,1,2]] hmem
    simp only [hval] at h
    exact h
  · have h := foldl_min_le (optStep metric phase (_flatten [[0,1,2]]))
      (fun st => st.Elmin)
      (fun arr => ((_phasing_test metric phase (_flatten [[0,1,2]]) arr).1.2.1 : WithTop ℚ))
      (fun st arr => optStep_Elmin_le_state metric phase _ st arr)
      (fun st arr => optStep_Elmin_le_val metric phase _ st arr)
      (listProd (([[0,1,2]] : List (List ℕ)).map List.permutations))
      ⟨⊤, [], ⊤, [], ⊤, [], ⊤, []⟩ [[0,1,2]] hmem
    simp only [hval] at h
    exact h
  · have h := foldl_min_le (optStep metric phase (_flatten [[0,1,2]]))
      (fun st => st.Ermin)
      (fun arr => ((_phasing_test metric phase (_flatten [[0,1,2]]) arr).1.2.2 : WithTop ℚ))
      (fun st arr => optStep_Ermin_le_state metric phase _ st arr)
      (fun st arr => optStep_Ermin_le_val metric phase _ st arr)
      (listProd (([[0,1,2]] : List (List ℕ)).map List.permutations))
      ⟨⊤, [], ⊤, [], ⊤, [], ⊤, []⟩ [[0,1,2]] hmem
    simp only [hval] at h
    exact h

lemma except_bind_isOk_false {α β : Type} (x : Except PyErr α) (f : α → Except PyErr β)
    (h : ∀ a, (f a).isOk = false) : (x >>= f).isOk = false := by
  cases x with
  | error e => rfl
  | ok a => exact h a

/-- C8 (code bug): target_fields never returns the documented height tuple
and SectionBook for any targets: every call that completes its bisection
phase raises NameError at line 384, where adj = SectionBook(...) uses the
name SectionBook unqualified (only fields_class is imported).  In
particular, with all four targets None - the canonical falsy, omitted
value of the docstring - every bisection is skipped and the call still
crashes instead of returning the all-None height tuple with an empty
SectionBook. -/
theorem C8_target_fields_never_returns (fBl fBr fEl fEr : ℚ → ℚ)
    (B_l B_r E_l E_r : Option ℚ) (max_iter : ℕ) (rel_err hhigh : ℚ) :
    (target_fields fBl fBr fEl fEr B_l B_r E_l E_r max_iter rel_err hhigh).isOk = false
    ∧ target_fields fBl fBr fEl fEr none none none none max_iter rel_err hhigh
        = .error (.nameError sectionBookMsg) := by
  constructor
  · rw [target_fields]
    apply except_bind_isOk_false
    intro a
    apply except_bind_isOk_false
    intro b
    apply except_bind_isOk_false
    intro c
    apply except_bind_isOk_false
    intro d
    rfl
  · rfl

/-- C10: E_field raises the length FLDError exactly on sample arrays of
different lengths: when len(x) differs from len(y) it returns that error,
and when the lengths agree no error carrying the length message is ever
returned (the only other error is the distinct frequency message). -/
theorem C10_E_field_length_check (cosf logf : ℚ → ℚ) (rpow : ℚ → ℚ → ℚ)
    (pi sqrt3 : ℚ)
    (f_cond x_cond y_cond subconds d_cond d_bund V_cond I_cond p_cond x y : List ℚ) :
    (x.length ≠ y.length →
      E_field cosf logf rpow pi sqrt3 f_cond x_cond y_cond subconds d_cond d_bund
        V_cond I_cond p_cond x y = .error ⟨lenMsg⟩)
    ∧ (x.length = y.length →
      ∀ e, E_field cosf logf rpow pi sqrt3 f_cond x_cond y_cond subconds d_cond d_bund
        V_cond I_cond p_cond x y = .error e → e ≠ ⟨lenMsg⟩) := by
  constructor
  · intro h
    rw [E_field, if_pos h]
  · intro h e he
    rw [E_field, if_neg (by omega)] at he
    by_cases hf : anyDiff f_cond = true
    · rw [if_pos hf] at he
      have h2 := Except.error.inj he
      intro hcontra
      rw [hcontra] at h2
      have h3 : freqMsg = lenMsg := congrArg FLDError.message h2
      simp [freqMsg, lenMsg] at h3
    · rw [if_neg hf] at he
      simp at he

/-- C10 witness: a concrete call with two sample x values and one y value
returns the length error. -/
theorem C10_E_field_length_check_witness :
    E_field (fun _ => 0) (fun _ => 0) (fun _ _ => 0) 0 0
      [60] [1] [10] [1] [1] [1] [1] [1] [0] [0, 0] [1] = .error ⟨lenMsg⟩ :=
  (C10_E_field_length_check (fun _ => 0) (fun _ => 0) (fun _ _ => 0) 0 0
    [60] [1] [10] [1] [1] [1] [1] [1] [0] [0, 0] [1]).1 (by decide)

/-- C2 counterexample: two conductors at the identical position (1, 10)
with uniform frequencies and matching sample lengths: E_field raises
nothing and returns field arrays (the mutual-coupling term divides by the
zero squared distance, which no code path checks), refuting the claim that
duplicate positions or factorization failure produce a domain error. -/
theorem C2_counterexample :
    (([1, 1] : List ℚ).getD 0 0 = ([1, 1] : List ℚ).getD 1 0
      ∧ ([10, 10] : List ℚ).getD 0 0 = ([10, 10] : List ℚ).getD 1 0)
    ∧ (E_field (fun _ => 0) (fun _ => 0) (fun _ _ => 0) 0 0
        [60, 60] [1, 1] [10, 10] [1, 1] [1, 1] [1, 1] [1, 1] [1, 1] [0, 0]
        [0] [1]).isOk = true := by
  constructor
  · exact ⟨rfl, rfl⟩
  · rfl

/-- C2 (amended): for sample arrays of equal length, E_field raises a
domain error exactly when the conductor frequencies are inconsistent (some
consecutive difference is nonzero); duplicate conductor positions and
factorization breakdowns raise nothing - the computation proceeds through
divisions by zero and field arrays are returned. -/
theorem C2_E_field_error_iff (cosf logf : ℚ → ℚ) (rpow : ℚ → ℚ → ℚ)
    (pi sqrt3 : ℚ)
    (f_cond x_cond y_cond subconds d_cond d_bund V_cond I_cond p_cond x y : List ℚ)
    (hlen : x.length = y.length) :
    (anyDiff f_cond = true →
      E_field cosf logf rpow pi sqrt3 f_cond x_cond y_cond subconds d_cond d_bund
        V_cond I_cond p_cond x y = .error ⟨freqMsg⟩)
    ∧ (anyDiff f_cond = false →
      (E_field cosf logf rpow pi sqrt3 f_cond x_cond y_cond subconds d_cond d_bund
        V_cond I_cond p_cond x y).isOk = true) := by
  constructor
  · intro hf
    rw [E_field, if_neg (by omega), if_pos hf]
  · intro hf
    rw [E_field, if_neg (by omega), if_neg (by simp [hf])]
    rfl

/-- C2 witness: uniform 60 Hz frequencies with equal-length samples produce
a successful call. -/
theorem C2_E_field_error_iff_witness :
    anyDiff [(60:ℚ), 60] = false
    ∧ (E_field (fun _ => 0) (fun _ => 0) (fun _ _ => 0) 0 0
        [60, 60] [1, 2] [10, 20] [1, 1] [1, 1] [1, 1] [1, 1] [1, 1] [0, 0]
        [0] [1]).isOk = true :=
  ⟨by decide,
   (C2_E_field_error_iff (fun _ => 0) (fun _ => 0) (fun _ _ => 0) 0 0
     [60, 60] [1, 2] [10, 20] [1, 1] [1, 1] [1, 1] [1, 1] [1, 1] [0, 0]
     [0] [1] rfl).2 (by decide)⟩

/-- C9 counterexample: after a successful E_field call with
x_cond = [-5, 5] (the test script inputs), the caller array x_cond holds
the meter-converted values [-381/250, 381/250], not the original feet
values: line 72 of the source multiplies the caller array in place. -/
theorem C9_counterexample :
    (E_field (fun _ => 0) (fun _ => 0) (fun _ _ => 0) 0 0
        [60, 60] [-5, 5] [20, 30] [2, 1] [1, 1] [2, 1] [345, 300] [241, 420]
        [0, 120] [0] [3]).toOption.map EFieldOut.x_cond
      = some [-381/250, 381/250]
    ∧ ([-381/250, 381/250] : List ℚ) ≠ [-5, 5] := by
  constructor
  · rfl
  · decide

/-- C9 (amended): a successful E_field call leaves the caller arrays
f_cond, subconds, d_cond, d_bund, I_cond, x and y exactly as passed, but
mutates x_cond, y_cond, V_cond and p_cond in place to their unit-converted
values (feet to meters, line-line to ground-referenced volts, degrees to
radians); the returned component arrays are freshly built. -/
theorem C9_E_field_frame (cosf logf : ℚ → ℚ) (rpow : ℚ → ℚ → ℚ)
    (pi sqrt3 : ℚ)
    (f_cond x_cond y_cond subconds d_cond d_bund V_cond I_cond p_cond x y : List ℚ)
    (hlen : x.length = y.length) (hfreq : anyDiff f_cond = false) :
    (E_field cosf logf rpow pi sqrt3 f_cond x_cond y_cond subconds d_cond d_bund
        V_cond I_cond p_cond x y).toOption.map
        (fun o => (o.f_cond, o.subconds, o.d_cond, o.d_bund, o.I_cond, o.x, o.y))
      = some (f_cond, subconds, d_cond, d_bund, I_cond, x, y)
    ∧ (E_field cosf logf rpow pi sqrt3 f_cond x_cond y_cond subconds d_cond d_bund
        V_cond I_cond p_cond x y).toOption.map
        (fun o => (o.x_cond, o.y_cond, o.V_cond, o.p_cond))
      = some (x_cond.map (fun v => v * (3048/10000)),
              y_cond.map (fun v => v * (3048/10000)),
              V_cond.map (fun v => v * (1/sqrt3)),
              p_cond.map (fun v => v * (2*pi/360))) := by
  constructor <;>
  · rw [E_field, if_neg (by omega), if_neg (by simp [hfreq])]
    rfl

/-- C9 witness: the frame statement evaluated on a one-conductor call. -/
theorem C9_E_field_frame_witness :
    (E_field (fun _ => 0) (fun _ => 0) (fun _ _ => 0) 0 0
        [60] [7] [10] [1] [1] [1] [1] [1] [0] [0] [1]).toOption.map
        (fun o => (o.f_cond, o.subconds, o.d_cond, o.d_bund, o.I_cond, o.x, o.y))
      = some ([60], [1], [1], [1], [1], [0], [1]) :=
  (C9_E_field_frame (fun _ => 0) (fun _ => 0) (fun _ _ => 0) 0 0
    [60] [7] [10] [1] [1] [1] [1] [1] [0] [0] [1] rfl (by decide)).1
